import Mathlib

/-!
Verification development for the transit_model core: a shallow embedding of
the in-memory relational transit data model (entity stores, correspondence
engine, sanitizer, stop-area merger, validity-period restrictor) together
with the two concrete utility functions `get_validity_period`
(transit_model/src/read_utils.rs) and `try_only_child`
(transit_model/src/minidom_utils/try_only_child.rs).

Dates are embedded as natural numbers via the year*10000 + month*100 + day
encoding; on valid calendar dates this encoding is strictly monotone in
chronological order, and the code under study uses dates only through
ordering, equality and set membership.
-/

namespace TransitModel

/-! ## XML elements and try_only_child (minidom_utils/try_only_child.rs) -/

/-- An XML element as used by `try_only_child`: a name and a list of
child elements (attributes and text are irrelevant to the function). -/
inductive Element : Type where
  | mk : String → List Element → Element

/-- The element's tag name (`Element::name` in minidom). -/
def Element.name : Element → String
  | .mk n _ => n

/-- The element's children (`Element::children` in minidom). -/
def Element.childList : Element → List Element
  | .mk _ cs => cs

/-- The two failure messages of `try_only_child`:
`childNotFound` embeds the bail "Failed to find a child {child} in element
{elem}", `childNotUnique` embeds "Failed to find a unique child {child} in
element {elem}".  Each constructor carries the child name and the element
name interpolated into the message. -/
inductive TocError : Type where
  | childNotFound : String → String → TocError
  | childNotUnique : String → String → TocError
deriving DecidableEq

/-- `TryOnlyChild::try_only_child`: filter the children by name; if the
filtered iterator yields nothing, fail with the missing-child error; if it
yields one element and then nothing, return it; otherwise fail with the
non-unique-child error. -/
def Element.try_only_child (e : Element) (child_name : String) :
    Except TocError Element :=
  match e.childList.filter (fun c => c.name == child_name) with
  | [] => .error (.childNotFound child_name e.name)
  | [c] => .ok c
  | _ :: _ :: _ => .error (.childNotUnique child_name e.name)

/-! ## Calendars and get_validity_period (read_utils.rs) -/

/-- A service calendar: identifier plus its set of active dates
(`Calendar::dates`, a `BTreeSet<NaiveDate>` in the source). -/
structure Calendar where
  id : String
  dates : Finset ℕ
deriving DecidableEq

/-- `ValidityPeriod { start_date, end_date }`. -/
structure ValidityPeriod where
  start_date : ℕ
  end_date : ℕ
deriving DecidableEq

/-- The fold `calendars.values().fold(BTreeSet::new(), |acc, c|
acc.union(&c.dates))` of `get_validity_period`. -/
def unionOfDates (calendars : List Calendar) : Finset ℕ :=
  calendars.foldl (fun acc c => acc ∪ c.dates) ∅

/-- `get_validity_period`: union all calendars' date sets; `None` when the
union is empty, otherwise the period from the first (smallest) to the last
(largest) element of the sorted set. -/
def get_validity_period (calendars : List Calendar) : Option ValidityPeriod :=
  let dates := unionOfDates calendars
  if h : dates = ∅ then none
  else
    some { start_date := dates.min' (Finset.nonempty_iff_ne_empty.mpr h)
           end_date := dates.max' (Finset.nonempty_iff_ne_empty.mpr h) }

/-! ## Entity store build (collection crate) -/

/-- The collection crate's error type: `Error::IdentifierAlreadyExists(String)`
("Identifier {0} already exists"), from collection/src/lib.rs. -/
inductive CollectionError : Type where
  | identifierAlreadyExists : String → CollectionError
deriving DecidableEq

/-- Modelled from the spec: the entity store of the collection crate, whose
implementation module (`mod collection`) is absent from the sources.  Records
of one kind are held in one ordered sequence; a handle is the position in
that sequence. -/
structure Store (α : Type) where
  objects : List α
deriving DecidableEq

/-- Modelled from the spec: the fail-fast scan of `build` — walk the records
in input order carrying the set of identifiers seen so far, and stop with
`IdentifierAlreadyExists` at the first record whose identifier was already
indexed. -/
def buildScan (idOf : α → String) : List α → List String → Except CollectionError (List α)
  | [], _ => .ok []
  | r :: rs, seen =>
    if idOf r ∈ seen then .error (.identifierAlreadyExists (idOf r))
    else (buildScan idOf rs (idOf r :: seen)).map (fun tl => r :: tl)

/-- Modelled from the spec: `build(records) -> Store | Error::DuplicateIdentifier(id)`
— assigns handles in input order, builds the identifier index, fails fast on
collision.  The store implementation is absent from the sources; only the
error declaration survives in collection/src/lib.rs. -/
def build (idOf : α → String) (records : List α) : Except CollectionError (Store α) :=
  (buildScan idOf records []).map (fun objs => { objects := objs })

/-- Modelled from the spec: `get_by_id(id) -> Option<&Record>` — resolve an
identifier through the identifier index; with unique identifiers this is the
first (and only) record bearing the identifier. -/
def Store.get_by_id (idOf : α → String) (s : Store α) (i : String) : Option α :=
  s.objects.find? (fun r => idOf r == i)

/-- `len()` of a store. -/
def Store.len (s : Store α) : ℕ := s.objects.length

/-! ## Collections, sanitize, restrict_period -/

/-- A vehicle journey (trip): identifier plus the mandatory reference
`service_id` to its Calendar. -/
structure VehicleJourney where
  id : String
  service_id : String
deriving DecidableEq

/-- A frequency record, as in the `sanitize_frequencies` test: an optional
foreign key `vehicle_journey_id` plus the time fields. -/
structure Frequency where
  vehicle_journey_id : String
  start_time : ℕ
  end_time : ℕ
  headway_secs : ℕ
deriving DecidableEq

/-- The fragment of `Collections` reached by the restrictor and the
sanitizer claims: calendars, vehicle journeys and frequencies. -/
structure Collections where
  calendars : List Calendar
  vehicle_journeys : List VehicleJourney
  frequencies : List Frequency
deriving DecidableEq

/-- Modelled from the spec: `Collections::sanitize` (implementation absent
from the sources; exercised by the `sanitize_frequencies` test).  Records
whose reference does not resolve are dropped, never failing the run: a
vehicle journey is kept when its `service_id` resolves to a calendar, and a
frequency is kept when its `vehicle_journey_id` resolves to a kept vehicle
journey — the cascade of §4.6. -/
def Collections.sanitize (c : Collections) : Collections :=
  let vjs := c.vehicle_journeys.filter
    (fun vj => c.calendars.any (fun cal => cal.id == vj.service_id))
  { calendars := c.calendars
    vehicle_journeys := vjs
    frequencies := c.frequencies.filter
      (fun f => vjs.any (fun vj => vj.id == f.vehicle_journey_id)) }

/-- Modelled from the spec: `Collections::restrict_period` (implementation
absent from the sources; exercised by the restrict-validity-period tests).
Every calendar's date set is intersected with the inclusive window
`[d0, d1]`; calendars left with an empty date set are removed; a malformed
window (end before start) is the only failure. -/
def Collections.restrict_period (c : Collections) (d0 d1 : ℕ) :
    Except String Collections :=
  if d1 < d0 then .error "invalid interval"
  else .ok
    { calendars :=
        (c.calendars.map
          (fun cal => { cal with dates := cal.dates.filter (fun d => d0 ≤ d ∧ d ≤ d1) })).filter
          (fun cal => decide cal.dates.Nonempty)
      vehicle_journeys := c.vehicle_journeys
      frequencies := c.frequencies }

/-! ## Stop-area merger (merge_stop_areas) -/

/-- A stop area record (identifier only; the other fields play no role in
the reference-rewriting claims). -/
structure StopArea where
  id : String
deriving DecidableEq

/-- A stop point: identifier plus the reference `stop_area_id` to the stop
area it belongs to. -/
structure StopPoint where
  id : String
  stop_area_id : String
deriving DecidableEq

/-- A further record kind holding a direct reference to a stop area
identifier (object codes / comment links / object properties attached to
stop areas in the fixtures); it stands for "any record anywhere in the
Model that references the merged stop area's identifier". -/
structure ObjectCode where
  object_id : String
  code : String
deriving DecidableEq

/-- `StopAreaGroupRule { master_stop_area_id, to_merge_stop_area_ids }`,
as in the merge_stop_areas test. -/
structure StopAreaGroupRule where
  master_stop_area_id : String
  to_merge_stop_area_ids : List String
deriving DecidableEq

/-- The collections touched by stop-area merging. -/
structure MergeCollections where
  stop_areas : List StopArea
  stop_points : List StopPoint
  object_codes : List ObjectCode
deriving DecidableEq

/-- Modelled from the spec: applying one valid merge rule
(merge_stop_areas implementation absent from the sources).  Every reference
to a merged-away stop area identifier is rewritten to the master's
identifier — stop points are reassigned to the master — and the merged stop
area records themselves are removed. -/
def applyRule (c : MergeCollections) (r : StopAreaGroupRule) : MergeCollections :=
  { stop_areas := c.stop_areas.filter
      (fun sa => decide (sa.id ∉ r.to_merge_stop_area_ids))
    stop_points := c.stop_points.map
      (fun sp =>
        if sp.stop_area_id ∈ r.to_merge_stop_area_ids then
          { sp with stop_area_id := r.master_stop_area_id }
        else sp)
    object_codes := c.object_codes.map
      (fun oc =>
        if oc.object_id ∈ r.to_merge_stop_area_ids then
          { oc with object_id := r.master_stop_area_id }
        else oc) }

/-- The correspondence query from one stop point to its stop area: resolve
the `stop_area_id` reference in the stop-area store. -/
def correspondingStopArea (c : MergeCollections) (sp : StopPoint) : Option StopArea :=
  c.stop_areas.find? (fun sa => sa.id == sp.stop_area_id)

/-- Two rules conflict when some identifier is a to-merge target of two
different masters, or the master of one rule is itself a to-merge id of the
other (chain merges are rejected, not resolved transitively). -/
def rulesConflict (r1 r2 : StopAreaGroupRule) : Prop :=
  (r1.master_stop_area_id ≠ r2.master_stop_area_id ∧
    ∃ i ∈ r1.to_merge_stop_area_ids, i ∈ r2.to_merge_stop_area_ids) ∨
  r1.master_stop_area_id ∈ r2.to_merge_stop_area_ids ∨
  r2.master_stop_area_id ∈ r1.to_merge_stop_area_ids

instance (r1 r2 : StopAreaGroupRule) : Decidable (rulesConflict r1 r2) := by
  unfold rulesConflict
  infer_instance

/-- The merger's fatal error: a rule conflict naming both conflicting
rules. -/
inductive MergeError : Type where
  | ruleConflict : StopAreaGroupRule → StopAreaGroupRule → MergeError
deriving DecidableEq

/-- Scan of the rule sequence for the first conflicting pair. -/
def findConflict : List StopAreaGroupRule → Option (StopAreaGroupRule × StopAreaGroupRule)
  | [] => none
  | r :: rs =>
    match rs.find? (fun r2 => decide (rulesConflict r r2)) with
    | some r2 => some (r, r2)
    | none => findConflict rs

/-- Modelled from the spec: `apply_rules` of merge_stop_areas
(implementation absent from the sources).  Rule validation rejects
ambiguous or chained groupings with a rule-conflict error naming both
rules, producing no output collections; otherwise each rule is applied in
order. -/
def apply_rules (c : MergeCollections) (rules : List StopAreaGroupRule) :
    Except MergeError MergeCollections :=
  match findConflict rules with
  | some (r1, r2) => .error (.ruleConflict r1 r2)
  | none => .ok (rules.foldl applyRule c)

/-! ## Correspondence engine (relations crate) -/

/-- Modelled from the spec: one hop of a correspondence walk — replace the
current handle set by the union, over all handles in it, of the edge's
adjacency target sets, deduplicated (the relations crate is absent from the
sources).  Handles are positions, embedded as naturals; an edge is its
adjacency map. -/
def hopUnion (s : Finset ℕ) (e : ℕ → Finset ℕ) : Finset ℕ :=
  s.biUnion e

/-- Modelled from the spec: walking a composed path edge-by-edge, taking
the adjacency union at each hop. -/
def walkPath (path : List (ℕ → Finset ℕ)) (s : Finset ℕ) : Finset ℕ :=
  path.foldl hopUnion s

/-- Modelled from the spec: the schema graph, reduced to what the
correspondence engine consumes — the resolved composed path of declared
edges for each ordered pair of kinds (resolved once at schema-build time). -/
structure Schema (κ : Type) where
  path : κ → κ → List (ℕ → Finset ℕ)

/-- Modelled from the spec: `corresponding(handles, target_kind)` — resolve
the composed path from the source kind to the target kind and walk it
hop-by-hop. -/
def corresponding (sch : Schema κ) (a b : κ) (s : Finset ℕ) : Finset ℕ :=
  walkPath (sch.path a b) s

/-- Equality of `Except` results is decidable when both component types
have decidable equality. -/
instance {ε α : Type} [DecidableEq ε] [DecidableEq α] : DecidableEq (Except ε α)
  | .ok a, .ok b =>
    if h : a = b then .isTrue (by rw [h]) else .isFalse (by simpa using h)
  | .ok _, .error _ => .isFalse (by simp)
  | .error _, .ok _ => .isFalse (by simp)
  | .error a, .error b =>
    if h : a = b then .isTrue (by rw [h]) else .isFalse (by simpa using h)

/-! ## Concrete dates and scenarios -/

/-- Encoding of a calendar date as year*10000 + month*100 + day; on valid
dates this is strictly monotone in chronological order, and the model uses
dates only through ordering, equality and set membership. -/
def dateYMD (y m d : ℕ) : ℕ := y * 10000 + m * 100 + d

/-- Gregorian leap year. -/
def isLeapYear (y : ℕ) : Bool :=
  (y % 4 == 0 && !(y % 100 == 0)) || y % 400 == 0

/-- Number of days of a month. -/
def daysInMonth (y m : ℕ) : ℕ :=
  if m = 2 then (if isLeapYear y then 29 else 28)
  else if m = 4 ∨ m = 6 ∨ m = 9 ∨ m = 11 then 30 else 31

/-- Whether an encoded number is a valid calendar date. -/
def validYMD (c : ℕ) : Bool :=
  decide (1 ≤ c / 100 % 100 ∧ c / 100 % 100 ≤ 12 ∧ 1 ≤ c % 100 ∧
    c % 100 ≤ daysInMonth (c / 10000) (c / 100 % 100))

/-- All valid calendar dates between two encoded dates, inclusive. -/
def datesInRange (a b : ℕ) : Finset ℕ :=
  (Finset.Icc a b).filter (fun d => validYMD d = true)

/-- The restrict-validity-period fixture of the claims: a single Calendar
active on every date of 2018-05-01 .. 2018-08-05, and one vehicle journey
on that calendar. -/
def restrictScenario : Collections :=
  { calendars :=
      [{ id := "service:1"
         dates := datesInRange (dateYMD 2018 5 1) (dateYMD 2018 8 5) }]
    vehicle_journeys := [{ id := "vj:1", service_id := "service:1" }]
    frequencies := [] }

/-- A three-kind schema whose declared path from kind 0 to kind 2 is the
composition of the declared paths 0 → 1 and 1 → 2. -/
def schemaExample : Schema ℕ :=
  { path := fun a b =>
      if a = 0 ∧ b = 1 then [fun n => {n + 1}]
      else if a = 1 ∧ b = 2 then [fun n => {2 * n}]
      else if a = 0 ∧ b = 2 then [fun n => {n + 1}, fun n => {2 * n}]
      else [] }

/-! ## Theorems -/

/-- Membership in the running union folded over a calendar list. -/
lemma mem_foldl_union (cs : List Calendar) (init : Finset ℕ) (d : ℕ) :
    d ∈ cs.foldl (fun acc c => acc ∪ c.dates) init ↔
      d ∈ init ∨ ∃ c ∈ cs, d ∈ c.dates := by
  induction cs generalizing init with
  | nil => simp
  | cons c cs ih =>
    simp only [List.foldl_cons, ih, Finset.mem_union, List.mem_cons]
    constructor
    · rintro ((h | h) | ⟨c', hc', hd⟩)
      · exact Or.inl h
      · exact Or.inr ⟨c, Or.inl rfl, h⟩
      · exact Or.inr ⟨c', Or.inr hc', hd⟩
    · rintro (h | ⟨c', (rfl | hc'), hd⟩)
      · exact Or.inl (Or.inl h)
      · exact Or.inl (Or.inr hd)
      · exact Or.inr ⟨c', hc', hd⟩

/-- Membership in `unionOfDates`. -/
lemma mem_unionOfDates (cs : List Calendar) (d : ℕ) :
    d ∈ unionOfDates cs ↔ ∃ c ∈ cs, d ∈ c.dates := by
  simpa [unionOfDates] using mem_foldl_union cs ∅ d

/-- C9: `get_validity_period` returns `none` exactly when the union of all
calendars' date sets is empty (equivalently, every calendar's date set is
empty); otherwise it returns the period whose start date is the smallest
and whose end date is the largest date occurring in any calendar's date
set. -/
theorem get_validity_period_spec (cs : List Calendar) :
    (get_validity_period cs = none ↔ ∀ c ∈ cs, c.dates = ∅) ∧
    (∀ vp, get_validity_period cs = some vp →
      ((∃ c ∈ cs, vp.start_date ∈ c.dates) ∧
        ∀ c ∈ cs, ∀ d ∈ c.dates, vp.start_date ≤ d) ∧
      ((∃ c ∈ cs, vp.end_date ∈ c.dates) ∧
        ∀ c ∈ cs, ∀ d ∈ c.dates, d ≤ vp.end_date)) := by
  have hempty : unionOfDates cs = ∅ ↔ ∀ c ∈ cs, c.dates = ∅ := by
    rw [Finset.eq_empty_iff_forall_not_mem]
    constructor
    · intro h c hc
      rw [Finset.eq_empty_iff_forall_not_mem]
      intro d hd
      exact h d ((mem_unionOfDates cs d).mpr ⟨c, hc, hd⟩)
    · intro h d hd
      obtain ⟨c, hc, hdc⟩ := (mem_unionOfDates cs d).mp hd
      rw [h c hc] at hdc
      exact absurd hdc (Finset.not_mem_empty d)
  by_cases h : unionOfDates cs = ∅
  · refine ⟨⟨fun _ => hempty.mp h, fun _ => ?_⟩, ?_⟩
    · simp only [get_validity_period]
      rw [dif_pos (by exact h)]
    intro vp hvp
    simp only [get_validity_period] at hvp
    rw [dif_pos (by exact h)] at hvp
    exact absurd hvp (by simp)
  · constructor
    · simp only [get_validity_period]
      rw [dif_neg (by exact h)]
      simp only [reduceCtorEq, false_iff]
      exact fun hall => h (hempty.mpr hall)
    · intro vp hvp
      simp only [get_validity_period] at hvp
      rw [dif_neg (by exact h)] at hvp
      have hne := Finset.nonempty_iff_ne_empty.mpr h
      obtain rfl : vp = ⟨(unionOfDates cs).min' hne, (unionOfDates cs).max' hne⟩ := by
        cases hvp.symm
        rfl
      refine ⟨⟨?_, ?_⟩, ?_, ?_⟩
      · exact (mem_unionOfDates cs _).mp ((unionOfDates cs).min'_mem hne)
      · intro c hc d hd
        exact Finset.min'_le _ d ((mem_unionOfDates cs d).mpr ⟨c, hc, hd⟩)
      · exact (mem_unionOfDates cs _).mp ((unionOfDates cs).max'_mem hne)
      · intro c hc d hd
        exact Finset.le_max' _ d ((mem_unionOfDates cs d).mpr ⟨c, hc, hd⟩)

/-- C9 witness: on two concrete calendars with date sets `{5, 3}` and
`{8}`, the validity period is `[3, 8]`, `3` and `8` each occur in some
calendar, and every date lies between them. -/
theorem get_validity_period_spec_witness :
    get_validity_period
        [{ id := "c1", dates := {5, 3} }, { id := "c2", dates := {8} }] =
      some { start_date := 3, end_date := 8 } ∧
    (∃ c ∈ [({ id := "c1", dates := {5, 3} } : Calendar),
            { id := "c2", dates := {8} }], 3 ∈ c.dates) ∧
    (∃ c ∈ [({ id := "c1", dates := {5, 3} } : Calendar),
            { id := "c2", dates := {8} }], 8 ∈ c.dates) := by
  have hvp :
      get_validity_period
          [{ id := "c1", dates := {5, 3} }, { id := "c2", dates := {8} }] =
        some { start_date := 3, end_date := 8 } := by decide
  have h :=
    (get_validity_period_spec
      [{ id := "c1", dates := {5, 3} }, { id := "c2", dates := {8} }]).2
      { start_date := 3, end_date := 8 } hvp
  exact ⟨hvp, h.1.1, h.2.1⟩

/-- C10: `try_only_child` returns `Ok c` exactly when exactly one child of
the element bears the requested name — the filtered children are `[c]` —
and `c` is that child; with zero matching children it fails with the
missing-child error and with two or more it fails with the distinct
non-unique-child error (the element itself is never modified: the function
is read-only). -/
theorem try_only_child_spec (e : Element) (n : String) :
    (∀ c, e.try_only_child n = .ok c ↔
      e.childList.filter (fun x => x.name == n) = [c]) ∧
    (e.childList.countP (fun x => x.name == n) = 0 →
      e.try_only_child n = .error (.childNotFound n e.name)) ∧
    (2 ≤ e.childList.countP (fun x => x.name == n) →
      e.try_only_child n = .error (.childNotUnique n e.name)) := by
  have hcount : e.childList.countP (fun x => x.name == n) =
      (e.childList.filter (fun x => x.name == n)).length :=
    List.countP_eq_length_filter _ _
  refine ⟨fun c => ?_, fun h0 => ?_, fun h2 => ?_⟩
  · unfold Element.try_only_child
    rcases hl : e.childList.filter (fun x => x.name == n) with _ | ⟨a, _ | ⟨b, tl⟩⟩ <;>
      rw [hl] <;> simp
  · rw [hcount, List.length_eq_zero] at h0
    unfold Element.try_only_child
    rw [h0]
  · rw [hcount] at h2
    unfold Element.try_only_child
    rcases hl : e.childList.filter (fun x => x.name == n) with _ | ⟨a, _ | ⟨b, tl⟩⟩ <;>
        rw [hl] at h2 ⊢ <;> simp at h2 ⊢

/-- C10 witness: a root with one `child` yields that child; an empty root
yields the missing-child error; a root with two `child` elements yields the
non-unique-child error. -/
theorem try_only_child_spec_witness :
    (Element.mk "root" [Element.mk "child" []]).try_only_child "child" =
      .ok (Element.mk "child" []) ∧
    (Element.mk "root" []).try_only_child "child" =
      .error (.childNotFound "child" "root") ∧
    (Element.mk "root" [Element.mk "child" [], Element.mk "child" []]).try_only_child
        "child" =
      .error (.childNotUnique "child" "root") := by
  refine ⟨?_, ?_, ?_⟩
  · exact ((try_only_child_spec (Element.mk "root" [Element.mk "child" []])
      "child").1 (Element.mk "child" [])).mpr rfl
  · exact (try_only_child_spec (Element.mk "root" []) "child").2.1 rfl
  · exact (try_only_child_spec
      (Element.mk "root" [Element.mk "child" [], Element.mk "child" []])
      "child").2.2 (by decide)

/-- Under unique identifiers, `find?` by identifier returns exactly the
member bearing that identifier. -/
lemma find_by_id_of_nodup {α : Type} (idOf : α → String) (l : List α)
    (hn : (l.map idOf).Nodup) (r : α) (hr : r ∈ l) (x : String)
    (hx : idOf r = x) :
    l.find? (fun a => idOf a == x) = some r := by
  induction l with
  | nil => simp at hr
  | cons a tl ih =>
    simp only [List.map_cons, List.nodup_cons] at hn
    by_cases ha : idOf a = x
    · rw [List.find?_cons_of_pos _ (by simpa using ha)]
      rcases List.mem_cons.mp hr with rfl | hr
      · rfl
      · exact absurd (by rw [ha, ← hx]; exact List.mem_map_of_mem idOf hr) hn.1
    · rw [List.find?_cons_of_neg _ (by simpa using ha)]
      rcases List.mem_cons.mp hr with rfl | hr
      · exact absurd hx ha
      · exact ih hn.2 hr

/-- The fail-fast scan succeeds, returning the records unchanged, when the
identifiers are distinct and disjoint from those already seen. -/
lemma buildScan_ok {α : Type} (idOf : α → String) (records : List α)
    (seen : List String) (hn : (records.map idOf).Nodup)
    (hdisj : ∀ r ∈ records, idOf r ∉ seen) :
    buildScan idOf records seen = .ok records := by
  induction records generalizing seen with
  | nil => rfl
  | cons r rs ih =>
    simp only [List.map_cons, List.nodup_cons] at hn
    rw [buildScan, if_neg (hdisj r (List.mem_cons_self r rs))]
    rw [ih (idOf r :: seen) hn.2 ?_]
    · rfl
    · intro r' hr'
      simp only [List.mem_cons]
      rintro (h | h)
      · exact hn.1 (h ▸ List.mem_map_of_mem idOf hr')
      · exact hdisj r' (List.mem_cons_of_mem r hr') h

/-- The fail-fast scan stops with `IdentifierAlreadyExists` whenever the
incoming identifiers collide among themselves or with the ones already
seen, and the reported identifier is either duplicated among the records or
an already-seen one occurring in the records. -/
lemma buildScan_dup {α : Type} (idOf : α → String) (records : List α)
    (seen : List String)
    (h : ¬ (records.map idOf).Nodup ∨ ∃ i ∈ seen, i ∈ records.map idOf) :
    ∃ i, buildScan idOf records seen = .error (.identifierAlreadyExists i) ∧
      (2 ≤ records.countP (fun r => idOf r == i) ∨
        (i ∈ seen ∧ i ∈ records.map idOf)) := by
  induction records generalizing seen with
  | nil =>
    rcases h with h | ⟨i, _, hi⟩
    · simp at h
    · simp at hi
  | cons r rs ih =>
    by_cases hmem : idOf r ∈ seen
    · refine ⟨idOf r, ?_, Or.inr ⟨hmem, by simp⟩⟩
      rw [buildScan, if_pos hmem]
    · have h' : ¬ (rs.map idOf).Nodup ∨
          ∃ i ∈ idOf r :: seen, i ∈ rs.map idOf := by
        rcases h with h | ⟨i, hiseen, himap⟩
        · simp only [List.map_cons, List.nodup_cons] at h
          by_cases hin : idOf r ∈ rs.map idOf
          · exact Or.inr ⟨idOf r, List.mem_cons_self _ _, hin⟩
          · exact Or.inl (fun hnd => h ⟨hin, hnd⟩)
        · refine Or.inr ⟨i, List.mem_cons_of_mem _ hiseen, ?_⟩
          rw [List.map_cons] at himap
          rcases List.mem_cons.mp himap with rfl | h2
          · exact absurd hiseen hmem
          · exact h2
      obtain ⟨i, herr, hcase⟩ := ih (idOf r :: seen) h'
      refine ⟨i, ?_, ?_⟩
      · rw [buildScan, if_neg hmem, herr]
        rfl
      · rcases hcase with hcnt | ⟨hiseen', himap⟩
        · left
          rw [List.countP_cons]
          omega
        · rcases List.mem_cons.mp hiseen' with rfl | hiseen
          · left
            rw [List.countP_cons]
            have hpos : 0 < rs.countP (fun x => idOf x == idOf r) := by
              rw [List.countP_pos_iff]
              obtain ⟨r', hr', hid⟩ := List.mem_map.mp himap
              exact ⟨r', hr', by simpa using hid⟩
            simp only [beq_self_eq_true, if_pos]
            omega
          · exact Or.inr ⟨hiseen, by simpa using Or.inr himap⟩

/-- C3: building a store from records with pairwise distinct identifiers
succeeds with `len()` equal to the record count and `get_by_id` resolving
every identifier to its record; any input with a duplicated identifier
fails with `IdentifierAlreadyExists` naming a duplicated identifier, and
the error carries no store (no partial store is observable). -/
theorem build_spec {α : Type} (idOf : α → String) (records : List α) :
    ((records.map idOf).Nodup →
      ∃ s, build idOf records = .ok s ∧ s.len = records.length ∧
        ∀ r ∈ records, s.get_by_id idOf (idOf r) = some r) ∧
    (¬ (records.map idOf).Nodup →
      ∃ i, build idOf records = .error (.identifierAlreadyExists i) ∧
        2 ≤ records.countP (fun r => idOf r == i)) := by
  constructor
  · intro hn
    refine ⟨{ objects := records }, ?_, rfl, ?_⟩
    · rw [build, buildScan_ok idOf records [] hn (by simp)]
      rfl
    · intro r hr
      exact find_by_id_of_nodup idOf records hn r hr (idOf r) rfl
  · intro hn
    obtain ⟨i, herr, hcase⟩ := buildScan_dup idOf records [] (Or.inl hn)
    refine ⟨i, ?_, ?_⟩
    · rw [build, herr]
      rfl
    · rcases hcase with h | ⟨h, _⟩
      · exact h
      · simp at h

/-- C3 witness: two stop areas with distinct identifiers build a store of
length two resolving both; two records sharing identifier "a" fail with the
duplicate-identifier error. -/
theorem build_spec_witness :
    (∃ s, build StopArea.id [{ id := "a" }, { id := "b" }] = .ok s ∧
      s.len = [({ id := "a" } : StopArea), { id := "b" }].length ∧
      ∀ r ∈ [({ id := "a" } : StopArea), { id := "b" }],
        s.get_by_id StopArea.id (StopArea.id r) = some r) ∧
    (∃ i, build StopArea.id [{ id := "a" }, { id := "a" }] =
        .error (.identifierAlreadyExists i) ∧
      2 ≤ [({ id := "a" } : StopArea), { id := "a" }].countP
        (fun r => StopArea.id r == i)) :=
  ⟨(build_spec StopArea.id [{ id := "a" }, { id := "b" }]).1 (by decide),
    (build_spec StopArea.id [{ id := "a" }, { id := "a" }]).2 (by decide)⟩

/-- C7: the sanitizer is idempotent — running the sanitizing pass a second
time on its own output changes nothing. -/
theorem sanitize_idempotent (c : Collections) :
    c.sanitize.sanitize = c.sanitize := by
  simp only [Collections.sanitize, List.filter_filter, Bool.and_self]

/-- C8: the sanitizer drops exactly the records whose optional foreign key
does not resolve — every surviving frequency's `vehicle_journey_id`
resolves to a surviving vehicle journey, every original frequency whose key
resolves is kept, and no frequency is invented; the pass is a total
function, so an unresolved optional key never fails the run. -/
theorem sanitize_optional_key_spec (c : Collections) :
    (∀ f ∈ c.sanitize.frequencies,
      ∃ vj ∈ c.sanitize.vehicle_journeys, vj.id = f.vehicle_journey_id) ∧
    (∀ f ∈ c.frequencies,
      (∃ vj ∈ c.sanitize.vehicle_journeys, vj.id = f.vehicle_journey_id) →
        f ∈ c.sanitize.frequencies) ∧
    (∀ f ∈ c.sanitize.frequencies, f ∈ c.frequencies) := by
  refine ⟨?_, ?_, ?_⟩
  · intro f hf
    have h := (List.mem_filter.mp hf).2
    rw [List.any_eq_true] at h
    obtain ⟨vj, hvj, hid⟩ := h
    exact ⟨vj, hvj, by simpa using hid⟩
  · intro f hf ⟨vj, hvj, hid⟩
    refine List.mem_filter.mpr ⟨hf, ?_⟩
    rw [List.any_eq_true]
    exact ⟨vj, hvj, by simpa using hid⟩
  · intro f hf
    exact (List.mem_filter.mp hf).1

/-- C8 witness: the frequency of the `sanitize_frequencies` test, whose
`vehicle_journey_id` resolves to no vehicle journey, is dropped (no
frequency survives), while a frequency whose key resolves is kept. -/
theorem sanitize_optional_key_spec_witness :
    (Collections.sanitize
      { calendars := []
        vehicle_journeys := []
        frequencies := [{ vehicle_journey_id := "vehicle_journey_id_which_doesn_t_exist"
                          start_time := 0, end_time := 0, headway_secs := 0 }] }).frequencies =
      [] ∧
    { vehicle_journey_id := "vj:1", start_time := 0, end_time := 0,
      headway_secs := 0 } ∈
      (Collections.sanitize
        { calendars := [{ id := "c:1", dates := {1} }]
          vehicle_journeys := [{ id := "vj:1", service_id := "c:1" }]
          frequencies := [{ vehicle_journey_id := "vj:1", start_time := 0,
                            end_time := 0, headway_secs := 0 }] }).frequencies := by
  constructor
  · decide
  · exact (sanitize_optional_key_spec
      { calendars := [{ id := "c:1", dates := {1} }]
        vehicle_journeys := [{ id := "vj:1", service_id := "c:1" }]
        frequencies := [{ vehicle_journey_id := "vj:1", start_time := 0,
                          end_time := 0, headway_secs := 0 }] }).2.1
      _ (by decide) ⟨{ id := "vj:1", service_id := "c:1" }, by decide, rfl⟩

/-- C4: for a well-formed window `[d0, d1]`, restriction succeeds and,
after the follow-up sanitize, every remaining calendar's date set is a
non-empty subset of the window and every remaining vehicle journey
references a remaining calendar. -/
theorem restrict_period_spec (c : Collections) (d0 d1 : ℕ) (h : d0 ≤ d1) :
    ∃ c1, c.restrict_period d0 d1 = .ok c1 ∧
      (∀ cal ∈ c1.sanitize.calendars,
        cal.dates.Nonempty ∧ ∀ d ∈ cal.dates, d0 ≤ d ∧ d ≤ d1) ∧
      (∀ vj ∈ c1.sanitize.vehicle_journeys,
        ∃ cal ∈ c1.sanitize.calendars, cal.id = vj.service_id) := by
  have hok : c.restrict_period d0 d1 = .ok
      { calendars :=
          (c.calendars.map
            (fun cal =>
              { cal with dates := cal.dates.filter (fun d => d0 ≤ d ∧ d ≤ d1) })).filter
            (fun cal => decide cal.dates.Nonempty)
        vehicle_journeys := c.vehicle_journeys
        frequencies := c.frequencies } := by
    rw [Collections.restrict_period, if_neg (by omega)]
  refine ⟨_, hok, ?_, ?_⟩
  · intro cal hcal
    have hmem := List.mem_filter.mp hcal
    have hne : cal.dates.Nonempty := of_decide_eq_true hmem.2
    refine ⟨hne, ?_⟩
    obtain ⟨cal0, _, rfl⟩ := List.mem_map.mp hmem.1
    intro d hd
    exact (Finset.mem_filter.mp hd).2
  · intro vj hvj
    have h2 := (List.mem_filter.mp hvj).2
    rw [List.any_eq_true] at h2
    obtain ⟨cal, hcal, hid⟩ := h2
    exact ⟨cal, hcal, by simpa using hid⟩

/-- C4 witness: restricting a concrete model with one calendar on dates
`{3, 7}` and one vehicle journey to the window `[2, 5]` satisfies the
restriction property. -/
theorem restrict_period_spec_witness :
    2 ≤ 5 ∧
    ∃ c1,
      Collections.restrict_period
          { calendars := [{ id := "c:1", dates := {3, 7} }]
            vehicle_journeys := [{ id := "vj:1", service_id := "c:1" }]
            frequencies := [] } 2 5 = .ok c1 ∧
      (∀ cal ∈ c1.sanitize.calendars,
        cal.dates.Nonempty ∧ ∀ d ∈ cal.dates, 2 ≤ d ∧ d ≤ 5) ∧
      (∀ vj ∈ c1.sanitize.vehicle_journeys,
        ∃ cal ∈ c1.sanitize.calendars, cal.id = vj.service_id) :=
  ⟨by decide,
    restrict_period_spec
      { calendars := [{ id := "c:1", dates := {3, 7} }]
        vehicle_journeys := [{ id := "vj:1", service_id := "c:1" }]
        frequencies := [] } 2 5 (by decide)⟩

/-- C5 counterexample: restricting the fixture model — whose only calendar
is active on every date of 2018-05-01 .. 2018-08-05 — to the window
[2018-08-02, 2019-07-31] does NOT empty the calendar: the dates
2018-08-02 .. 2018-08-05 survive the intersection, so the calendar and its
vehicle journey both remain, contradicting the claimed zero vehicle
journeys. -/
theorem restrict_scenario_counterexample :
    ¬ ∀ c1,
      restrictScenario.restrict_period (dateYMD 2018 8 2) (dateYMD 2019 7 31) =
          .ok c1 →
        (c1.sanitize.calendars = [] ∧ c1.sanitize.vehicle_journeys = []) := by
  intro h
  have heq : restrictScenario.restrict_period (dateYMD 2018 8 2) (dateYMD 2019 7 31) =
      .ok { calendars :=
              [{ id := "service:1"
                 dates := datesInRange (dateYMD 2018 8 2) (dateYMD 2018 8 5) }]
            vehicle_journeys := [{ id := "vj:1", service_id := "service:1" }]
            frequencies := [] } := by
    decide
  have h2 := h _ heq
  revert h2
  decide

/-- C5 amended: restricting the fixture model to [2018-08-02, 2019-07-31]
intersects the calendar's dates down to the non-empty set
2018-08-02 .. 2018-08-05, so the calendar is kept and its vehicle journey
remains the sole vehicle journey of the result. -/
theorem restrict_scenario_amended :
    (restrictScenario.restrict_period (dateYMD 2018 8 2) (dateYMD 2019 7 31)).map
        Collections.sanitize =
      .ok { calendars :=
              [{ id := "service:1"
                 dates := datesInRange (dateYMD 2018 8 2) (dateYMD 2018 8 5) }]
            vehicle_journeys := [{ id := "vj:1", service_id := "service:1" }]
            frequencies := [] } := by
  decide

/-- C1: applying a valid merge rule to a sanitized model rewrites every
remaining reference — no stop point or stop-area-referencing record still
carries a merged-away identifier, every merged stop area record is removed,
and every stop point that belonged to a merged stop area is rewritten to
the master and resolves (via the stop-point → stop-area correspondence) to
the master stop area record. -/
theorem apply_rule_merge_spec (c : MergeCollections) (r : StopAreaGroupRule)
    (hvalid : r.master_stop_area_id ∉ r.to_merge_stop_area_ids)
    (hnodup : (c.stop_areas.map StopArea.id).Nodup)
    (saM : StopArea) (hmem : saM ∈ c.stop_areas)
    (hmid : saM.id = r.master_stop_area_id) :
    (∀ sp ∈ (applyRule c r).stop_points,
      sp.stop_area_id ∉ r.to_merge_stop_area_ids) ∧
    (∀ oc ∈ (applyRule c r).object_codes,
      oc.object_id ∉ r.to_merge_stop_area_ids) ∧
    (∀ sa ∈ (applyRule c r).stop_areas, sa.id ∉ r.to_merge_stop_area_ids) ∧
    (∀ sp ∈ c.stop_points, sp.stop_area_id ∈ r.to_merge_stop_area_ids →
      StopPoint.mk sp.id r.master_stop_area_id ∈ (applyRule c r).stop_points ∧
      correspondingStopArea (applyRule c r)
        (StopPoint.mk sp.id r.master_stop_area_id) = some saM) := by
  refine ⟨?_, ?_, ?_, ?_⟩
  · intro sp hsp
    obtain ⟨sp0, _, rfl⟩ := List.mem_map.mp hsp
    by_cases hin : sp0.stop_area_id ∈ r.to_merge_stop_area_ids
    · rw [if_pos hin]
      exact hvalid
    · rw [if_neg hin]
      exact hin
  · intro oc hoc
    obtain ⟨oc0, _, rfl⟩ := List.mem_map.mp hoc
    by_cases hin : oc0.object_id ∈ r.to_merge_stop_area_ids
    · rw [if_pos hin]
      exact hvalid
    · rw [if_neg hin]
      exact hin
  · intro sa hsa
    exact of_decide_eq_true (List.mem_filter.mp hsa).2
  · intro sp hsp hin
    constructor
    · exact List.mem_map.mpr ⟨sp, hsp, by simp [hin]⟩
    · have hmemF : saM ∈ (applyRule c r).stop_areas :=
        List.mem_filter.mpr ⟨hmem, decide_eq_true (by rw [hmid]; exact hvalid)⟩
      have hnodupF : ((applyRule c r).stop_areas.map StopArea.id).Nodup :=
        hnodup.sublist (List.Sublist.map StopArea.id (List.filter_sublist _))
      exact find_by_id_of_nodup StopArea.id (applyRule c r).stop_areas hnodupF
        saM hmemF r.master_stop_area_id hmid

/-- C1 witness: the spec scenario fragment — master SA:01 absorbing SA:02
and SA:04; the stop point SP:2 of SA:02 is rewritten to SA:01 and then
resolves to the SA:01 record. -/
theorem apply_rule_merge_spec_witness :
    StopPoint.mk "SP:2" "SA:01" ∈
      (applyRule
        { stop_areas := [{ id := "SA:01" }, { id := "SA:02" }, { id := "SA:04" },
                         { id := "SA:05" }, { id := "SA:06" }]
          stop_points := [{ id := "SP:1", stop_area_id := "SA:01" },
                          { id := "SP:2", stop_area_id := "SA:02" }]
          object_codes := [{ object_id := "SA:02", code := "ext:2" }] }
        { master_stop_area_id := "SA:01"
          to_merge_stop_area_ids := ["SA:02", "SA:04"] }).stop_points ∧
    correspondingStopArea
        (applyRule
          { stop_areas := [{ id := "SA:01" }, { id := "SA:02" }, { id := "SA:04" },
                           { id := "SA:05" }, { id := "SA:06" }]
            stop_points := [{ id := "SP:1", stop_area_id := "SA:01" },
                            { id := "SP:2", stop_area_id := "SA:02" }]
            object_codes := [{ object_id := "SA:02", code := "ext:2" }] }
          { master_stop_area_id := "SA:01"
            to_merge_stop_area_ids := ["SA:02", "SA:04"] })
        (StopPoint.mk "SP:2" "SA:01") = some { id := "SA:01" } :=
  (apply_rule_merge_spec
    { stop_areas := [{ id := "SA:01" }, { id := "SA:02" }, { id := "SA:04" },
                     { id := "SA:05" }, { id := "SA:06" }]
      stop_points := [{ id := "SP:1", stop_area_id := "SA:01" },
                      { id := "SP:2", stop_area_id := "SA:02" }]
      object_codes := [{ object_id := "SA:02", code := "ext:2" }] }
    { master_stop_area_id := "SA:01"
      to_merge_stop_area_ids := ["SA:02", "SA:04"] }
    (by decide) (by decide) { id := "SA:01" } (by decide) rfl).2.2.2
    { id := "SP:2", stop_area_id := "SA:02" } (by decide) (by decide)

/-- Rule conflict is a symmetric relation. -/
lemma rulesConflict_symm {r1 r2 : StopAreaGroupRule}
    (h : rulesConflict r1 r2) : rulesConflict r2 r1 := by
  rcases h with ⟨hne, i, h1, h2⟩ | h | h
  · exact Or.inl ⟨hne.symm, i, h2, h1⟩
  · exact Or.inr (Or.inr h)
  · exact Or.inr (Or.inl h)

/-- The conflict scan returns `none` exactly when no two rules of the
sequence conflict. -/
lemma findConflict_eq_none (rules : List StopAreaGroupRule) :
    findConflict rules = none ↔
      rules.Pairwise (fun a b => ¬ rulesConflict a b) := by
  induction rules with
  | nil => simp [findConflict]
  | cons r rs ih =>
    rw [findConflict]
    cases hf : rs.find? (fun r2 => decide (rulesConflict r r2)) with
    | some r2 =>
      simp only [reduceCtorEq, false_iff, List.pairwise_cons]
      intro hpw
      have h2 := List.find?_some hf
      exact hpw.1 r2 (List.mem_of_find?_eq_some hf) (of_decide_eq_true h2)
    | none =>
      rw [ih, List.pairwise_cons]
      have hall := List.find?_eq_none.mp hf
      constructor
      · intro h
        exact ⟨fun b hb => fun hc => absurd (decide_eq_true hc) (by simpa using hall b hb), h⟩
      · intro h
        exact h.2

/-- The conflict scan is sound: a returned pair is a pair of rules of the
sequence that do conflict. -/
lemma findConflict_sound (rules : List StopAreaGroupRule)
    (p q : StopAreaGroupRule) (h : findConflict rules = some (p, q)) :
    p ∈ rules ∧ q ∈ rules ∧ rulesConflict p q := by
  induction rules with
  | nil => exact absurd h (by simp [findConflict])
  | cons r rs ih =>
    rw [findConflict] at h
    cases hf : rs.find? (fun r2 => decide (rulesConflict r r2)) with
    | some r2 =>
      rw [hf] at h
      obtain ⟨rfl, rfl⟩ : r = p ∧ r2 = q := by simpa using h
      have hdec := List.find?_some hf
      exact ⟨List.mem_cons_self _ _,
        List.mem_cons_of_mem _ (List.mem_of_find?_eq_some hf),
        of_decide_eq_true (by simpa using hdec)⟩
    | none =>
      rw [hf] at h
      obtain ⟨h1, h2, h3⟩ := ih h
      exact ⟨List.mem_cons_of_mem _ h1, List.mem_cons_of_mem _ h2, h3⟩

/-- C2: whenever some identifier is a to-merge target of two rules with
different masters, or the master of one rule is a to-merge id of another
rule, `apply_rules` fails with a rule-conflict error that names two
conflicting rules of the sequence, and the error carries no collections
(no partially merged model is returned). -/
theorem apply_rules_conflict_spec (c : MergeCollections)
    (rules : List StopAreaGroupRule)
    (h : ∃ r1 ∈ rules, ∃ r2 ∈ rules,
      (r1.master_stop_area_id ≠ r2.master_stop_area_id ∧
        ∃ i ∈ r1.to_merge_stop_area_ids, i ∈ r2.to_merge_stop_area_ids) ∨
      (r1 ≠ r2 ∧ r1.master_stop_area_id ∈ r2.to_merge_stop_area_ids)) :
    ∃ p q, apply_rules c rules = .error (.ruleConflict p q) ∧
      p ∈ rules ∧ q ∈ rules ∧ rulesConflict p q := by
  have hne : findConflict rules ≠ none := by
    intro hn
    have hpw := (findConflict_eq_none rules).mp hn
    obtain ⟨r1, h1, r2, h2, hc⟩ := h
    have hd : r1 ≠ r2 := by
      rcases hc with ⟨hne12, _⟩ | ⟨hne12, _⟩
      · exact fun he => hne12 (he ▸ rfl)
      · exact hne12
    have hconf : rulesConflict r1 r2 := by
      rcases hc with ⟨hne12, hi⟩ | ⟨_, hm⟩
      · exact Or.inl ⟨hne12, hi⟩
      · exact Or.inr (Or.inl hm)
    have hsym : Symmetric (fun a b : StopAreaGroupRule => ¬ rulesConflict a b) :=
      fun a b hab hba => hab (rulesConflict_symm hba)
    exact (hpw.forall hsym) h1 h2 hd hconf
  cases hfc : findConflict rules with
  | none => exact absurd hfc hne
  | some pq =>
    obtain ⟨hp, hq, hcf⟩ := findConflict_sound rules pq.1 pq.2 (by rw [hfc])
    refine ⟨pq.1, pq.2, ?_, hp, hq, hcf⟩
    rw [apply_rules, hfc]

/-- C2 witness: the spec scenario — SA:02 listed as a to-merge target under
the two different masters SA:01 and SA:03 — is rejected with a
rule-conflict error naming two conflicting rules. -/
theorem apply_rules_conflict_spec_witness :
    ∃ p q,
      apply_rules { stop_areas := [], stop_points := [], object_codes := [] }
          [{ master_stop_area_id := "SA:01", to_merge_stop_area_ids := ["SA:02"] },
           { master_stop_area_id := "SA:03", to_merge_stop_area_ids := ["SA:02"] }] =
        .error (.ruleConflict p q) ∧
      p ∈ [({ master_stop_area_id := "SA:01",
              to_merge_stop_area_ids := ["SA:02"] } : StopAreaGroupRule),
           { master_stop_area_id := "SA:03", to_merge_stop_area_ids := ["SA:02"] }] ∧
      q ∈ [({ master_stop_area_id := "SA:01",
              to_merge_stop_area_ids := ["SA:02"] } : StopAreaGroupRule),
           { master_stop_area_id := "SA:03", to_merge_stop_area_ids := ["SA:02"] }] ∧
      rulesConflict p q :=
  apply_rules_conflict_spec
    { stop_areas := [], stop_points := [], object_codes := [] }
    [{ master_stop_area_id := "SA:01", to_merge_stop_area_ids := ["SA:02"] },
     { master_stop_area_id := "SA:03", to_merge_stop_area_ids := ["SA:02"] }]
    (by decide)

/-- C6: when the schema's resolved path from kind A to kind C is the
composition of its paths A → B and B → C (the declared relation path
A → B → C), projecting a handle set hop-wise through B equals the direct
correspondence query — path composition is associative. -/
theorem corresponding_comp (κ : Type) (sch : Schema κ) (a b c : κ)
    (s : Finset ℕ) (h : sch.path a c = sch.path a b ++ sch.path b c) :
    corresponding sch a c s = corresponding sch b c (corresponding sch a b s) := by
  simp only [corresponding, walkPath, h, List.foldl_append]

/-- C6 witness: on a concrete three-kind schema whose 0 → 2 path composes
the 0 → 1 and 1 → 2 paths, the hop-wise projection of the handle set {0}
equals the direct query. -/
theorem corresponding_comp_witness :
    corresponding schemaExample 0 2 {0} =
      corresponding schemaExample 1 2 (corresponding schemaExample 0 1 {0}) :=
  corresponding_comp ℕ schemaExample 0 1 2 {0} (by simp [schemaExample])

end TransitModel
